import Mathlib

/-!
Verification of the streaming chat front-end in
`src/ollama-server/frontend/src/App.js`.

JS strings are embedded as lists of UTF-16 code units (`List Nat`); every
string operation used by the source (`toLowerCase`, `includes`, `split`,
`trim`, `charAt(0).toUpperCase() + slice(1).toLowerCase()`, `join(' ')`)
is embedded per code unit.  The React component state is a record, and the
event handlers (`socket.onopen`, `socket.onmessage`, `fetchModels`,
`handleSendMessage`, `handleModelChange`) are functions on that record.
The `useEffect` at App.js lines 126-134 (finalizing the streaming buffer
into an assistant message) is modelled faithfully to React semantics: it
runs after an event handler exactly when one of its dependencies
`[isStreaming, currentResponse, selectedModel]` changed.
-/

/-- A JavaScript string, as its list of UTF-16 code units. -/
abbrev JStr := List Nat

/-- Code units of a Lean string literal (all literals used here are ASCII). -/
def js (s : String) : JStr := s.toList.map Char.toNat

/-- JS `toLowerCase` on one code unit (ASCII range; all inputs relevant to
the source's alias table are ASCII). -/
def lowerU (n : Nat) : Nat := if 65 ≤ n ∧ n ≤ 90 then n + 32 else n

/-- JS `toUpperCase` on one code unit (ASCII range). -/
def upperU (n : Nat) : Nat := if 97 ≤ n ∧ n ≤ 122 then n - 32 else n

/-- Is the code unit in `[a-zA-Z0-9]` (the character class of the regex at
App.js line 27)? -/
def isAlnumU (n : Nat) : Bool :=
  decide ((48 ≤ n ∧ n ≤ 57) ∨ (65 ≤ n ∧ n ≤ 90) ∨ (97 ≤ n ∧ n ≤ 122))

/-- The splitting predicate of the regex `[^a-zA-Z0-9]`. -/
def notAlnum (n : Nat) : Bool := !isAlnumU n

/-- The splitting predicate of `split(':')` (58 is the colon). -/
def isColon (n : Nat) : Bool := decide (n = 58)

/-- Whitespace for JS `trim` (space, tab, LF, VT, FF, CR). -/
def isWSU (n : Nat) : Bool :=
  decide (n = 32 ∨ n = 9 ∨ n = 10 ∨ n = 11 ∨ n = 12 ∨ n = 13)

/-- JS `s.toLowerCase()`. -/
def toLowerJ (s : JStr) : JStr := s.map lowerU

/-- JS `hay.includes(needle)`: substring test. -/
def includesJ (needle : JStr) : JStr → Bool
  | [] => needle.isEmpty
  | c :: t => List.isPrefixOf needle (c :: t) || includesJ needle t

/-- JS `s.split(sep)` where `sep` matches single code units satisfying `p`:
always returns a non-empty list, with empty fragments kept (so
`"".split` is `[""]`, and leading/trailing/adjacent separators produce
empty fragments), exactly like `String.prototype.split`. -/
def splitOnP (p : Nat → Bool) : JStr → List JStr
  | [] => [[]]
  | c :: cs =>
    let r := splitOnP p cs
    if p c then [] :: r else (c :: r.headI) :: r.tail

/-- JS `parts.join(' ')`. -/
def joinSp : List JStr → JStr
  | [] => []
  | [w] => w
  | w :: ws => w ++ 32 :: joinSp ws

/-- JS `word.charAt(0).toUpperCase() + word.slice(1).toLowerCase()`
(App.js line 28). -/
def titleWord : JStr → JStr
  | [] => []
  | c :: rest => upperU c :: rest.map lowerU

/-- The alias table `modelMap` of `getDisplayName` (App.js lines 9-14), in
insertion order (`for ... in` iterates string keys in insertion order). -/
def modelMap : List (JStr × JStr) :=
  [ (js "mistral:latest", js "Mistral"),
    (js "deepseek-r1:latest", js "DeepSeek R1"),
    (js "llama3.2:latest", js "Llama 3.2"),
    (js "gemma2:2b", js "Gemma 2") ]

/-- The alias lookup of `getDisplayName` (App.js lines 17-21): the first
map entry whose lowercased key is a substring of the lowercased input. -/
def findAlias (s : JStr) : Option (JStr × JStr) :=
  modelMap.find? (fun kv => includesJ (toLowerJ kv.1) (toLowerJ s))

/-- The function `getDisplayName` (App.js lines 8-33).  Alias branch, else split on `:`,
take the first part, split it on non-alphanumerics, title-case each word
and join with spaces.  (In JS `split` never returns an empty array, so the
final `return modelName` at line 32 is dead; it is kept for fidelity.) -/
def getDisplayName (s : JStr) : JStr :=
  match findAlias s with
  | some kv => kv.2
  | none =>
    match splitOnP isColon s with
    | [] => s
    | p :: _ => joinSp ((splitOnP notAlnum p).map titleWord)

/-- The `type` field of a chat message (`'user' | 'assistant' | 'system'`). -/
inductive Role
  | user
  | assistant
  | system
deriving DecidableEq, Repr

/-- One element of the `messages` array.  `model` is `none` for messages
created without a `model:` property (user and system messages). -/
structure Message where
  type : Role
  content : JStr
  model : Option JStr := none
deriving DecidableEq, Repr

/-- The React component state of `App` (the `useState` hooks, App.js
lines 36-45), minus the purely visual `showHistoryModal`. -/
structure AppState where
  models : List JStr
  selectedModel : JStr
  messages : List Message
  inputMessage : JStr
  isConnected : Bool
  isStreaming : Bool
  currentResponse : JStr
  initialConnectionMade : Bool
  chatHistories : List JStr
deriving DecidableEq, Repr

/-- The initial state of every `useState` hook. -/
def initialState : AppState :=
  { models := [], selectedModel := [], messages := [], inputMessage := [],
    isConnected := false, isStreaming := false, currentResponse := [],
    initialConnectionMade := false, chatHistories := [] }

/-- An inbound socket frame, as classified by `socket.onmessage`
(App.js lines 164-195).  `otherType` is a JSON object whose `type` is none
of the recognized ones (it falls through every branch); `malformed` is a
payload on which `JSON.parse` throws (caught at line 192, only logged). -/
inductive InFrame
  | stream_start
  | stream (content : JStr)
  | stream_end
  | error (content : JStr)
  | chat_histories (histories : List JStr)
  | otherType
  | malformed
deriving DecidableEq, Repr

/-- An outbound socket frame (`socket.send`). -/
inductive OutFrame
  | message (content : JStr)
  | load_history (historyId : JStr)
deriving DecidableEq, Repr

/-- Outcome of the `fetch('/api/models')` call in `fetchModels`:
either a parsed `data.models` array, or any network/parse failure
(caught at App.js line 116). -/
inductive FetchResult
  | ok (models : List JStr)
  | fail
deriving DecidableEq, Repr

/-- The state updates performed by `socket.onmessage` (App.js 164-195)
for one classified frame.  A malformed payload reaches the `catch` and
changes nothing. -/
def onmessage (st : AppState) : InFrame → AppState
  | .stream_start => { st with isStreaming := true, currentResponse := [] }
  | .stream c => { st with currentResponse := st.currentResponse ++ c }
  | .stream_end => { st with isStreaming := false }
  | .error c =>
    { st with isStreaming := false,
              messages := st.messages ++ [⟨Role.system, js "Error: " ++ c, none⟩] }
  | .chat_histories hs => { st with chatHistories := hs }
  | .otherType => st
  | .malformed => st

/-- The dependency array `[isStreaming, currentResponse, selectedModel]`
of the streaming-end effect (App.js line 134). -/
def effectDeps (st : AppState) : Bool × JStr × JStr :=
  (st.isStreaming, st.currentResponse, st.selectedModel)

/-- The body of the streaming-end effect (App.js lines 126-134): when not
streaming and the buffer is non-empty, promote the buffer into an
assistant message tagged with the selected model and clear it. -/
def streamEndEffect (st : AppState) : AppState :=
  if st.isStreaming = false ∧ st.currentResponse ≠ [] then
    { st with
      messages := st.messages ++ [⟨Role.assistant, st.currentResponse, some st.selectedModel⟩],
      currentResponse := [] }
  else st

/-- Processing of one inbound frame: run the handler, then run the
streaming-end effect iff its dependencies changed (React re-runs an
effect after a render exactly when its dependency array changed; one run
suffices, since the effect either fires and empties the buffer or leaves
the state unchanged). -/
def processFrame (st : AppState) (f : InFrame) : AppState :=
  if effectDeps (onmessage st f) = effectDeps st then onmessage st f
  else streamEndEffect (onmessage st f)

/-- Processing of a sequence of inbound frames, in arrival order. -/
def processFrames (st : AppState) : List InFrame → AppState
  | [] => st
  | f :: fs => processFrames (processFrame st f) fs

/-- The greeting text built at App.js line 156. -/
def greet (m : JStr) : JStr :=
  js "Hello there! I am " ++ getDisplayName m ++ js ". How can I assist you today?"

/-- The handler `socket.onopen` (App.js lines 147-162): mark connected; if
no initial connection was ever made (a single app-wide flag), append the
greeting and set the flag. -/
def onopen (st : AppState) : AppState :=
  if st.initialConnectionMade = false then
    { st with
      isConnected := true,
      messages := st.messages ++
        [⟨Role.assistant, greet st.selectedModel, some st.selectedModel⟩],
      initialConnectionMade := true }
  else { st with isConnected := true }

/-- The handlers `socket.onclose` / `socket.onerror` (App.js lines 197-205). -/
def onclose (st : AppState) : AppState := { st with isConnected := false }

/-- The handler `handleModelChange` (App.js lines 220-222) followed by the
re-render: set `selectedModel`, then run the streaming-end effect iff its
dependencies changed (`selectedModel` is one of them).  The socket
(re)connection effect produces no immediate state change; its `onopen`
arrives later as an event. -/
def handleModelChange (st : AppState) (m : JStr) : AppState :=
  if effectDeps { st with selectedModel := m } = effectDeps st then
    { st with selectedModel := m }
  else streamEndEffect { st with selectedModel := m }

/-- The function `fetchModels` (App.js lines 106-123): on success reverse the arrival
list in place, and when non-empty store it and select its first element
(the most-recently-listed model); on any failure append one system error
message.  Total: the JS `catch` guarantees no exception escapes. -/
def fetchModels (st : AppState) : FetchResult → AppState
  | .ok ms =>
    if ms.reverse.length > 0 then
      { st with models := ms.reverse, selectedModel := ms.reverse.headI }
    else st
  | .fail =>
    { st with messages := st.messages ++
        [⟨Role.system, js "Error connecting to the server. Please ensure the backend is running.", none⟩] }

/-- JS `s.trim()`. -/
def trimJ (s : JStr) : JStr :=
  ((s.dropWhile isWSU).reverse.dropWhile isWSU).reverse

/-- The handler `handleSendMessage` (App.js lines 225-244): a guarded no-op when the
trimmed input is empty, the socket is not connected, or a stream is in
progress; otherwise append the user message, emit a `message` frame and
clear the input.  (The handler changes no dependency of the streaming-end
effect, so no effect run follows.) -/
def handleSendMessage (st : AppState) : AppState × Option OutFrame :=
  if trimJ st.inputMessage = [] ∨ st.isConnected = false ∨ st.isStreaming = true then
    (st, none)
  else
    ({ st with messages := st.messages ++ [⟨Role.user, st.inputMessage, none⟩],
               inputMessage := [] },
     some (OutFrame.message st.inputMessage))

/-- Is the frame a `stream_start`? -/
def isStart : InFrame → Bool
  | .stream_start => true
  | _ => false

/-- Does the frame close a streaming window (`stream_end` or `error`)? -/
def isStop : InFrame → Bool
  | .stream_end => true
  | .error _ => true
  | _ => false

/-- Concatenation, in order, of the `content` fields of the `stream`
frames of a list. -/
def streamContents (fs : List InFrame) : JStr :=
  (fs.filterMap (fun f => match f with | .stream c => some c | _ => none)).flatten

/-- The suffix of the frame list strictly after its last `stream_start`
(`none` when no `stream_start` occurs). -/
def afterLastStart : List InFrame → Option (List InFrame)
  | [] => none
  | f :: fs =>
    match afterLastStart fs with
    | some s => some s
    | none => if isStart f then some fs else none

/-- Modelled from the claim's words (literal reading): the concatenation
of the `content` fields of exactly those `stream` frames arriving strictly
after the most recent `stream_start` and strictly before the next
`stream_end`/`error`; empty when no window exists. -/
def specWindowBuffer (fs : List InFrame) : JStr :=
  match afterLastStart fs with
  | none => []
  | some suf => streamContents (suf.takeWhile (fun f => !isStop f))

/-- The amended buffer description: the deltas of the most recent window
count only while that window is still open; once it is closed by
`stream_end`/`error` (or when no `stream_start` occurred) the buffer is
empty, its content having been finalized into a message. -/
def specBufferAmended (fs : List InFrame) : JStr :=
  match afterLastStart fs with
  | none => []
  | some suf => if suf.any isStop then [] else streamContents suf

/-- One step of the forward window computation: `none` = no open window,
`some b` = open window whose deltas so far concatenate to `b`. -/
def specStep (w : Option JStr) : InFrame → Option JStr
  | .stream_start => some []
  | .stream c => match w with | some b => some (b ++ c) | none => none
  | .stream_end => none
  | .error _ => none
  | .chat_histories _ => w
  | .otherType => w
  | .malformed => w

/-- The relation between the machine state and the forward window
computation: streaming exactly when a window is open, with the buffer
equal to the open window's content and empty otherwise. -/
def machineR (st : AppState) : Option JStr → Prop
  | some b => st.isStreaming = true ∧ st.currentResponse = b
  | none => st.isStreaming = false ∧ st.currentResponse = []

/-- A complete stream exchange: `stream_start`, the deltas, `stream_end`. -/
def streamSeq (ds : List JStr) : List InFrame :=
  InFrame.stream_start :: (ds.map InFrame.stream ++ [InFrame.stream_end])

/-- A connected, mid-stream session with partial buffer `"par"`. -/
def stC1 : AppState :=
  { initialState with
    models := [js "m"], selectedModel := js "m", isConnected := true,
    initialConnectionMade := true, isStreaming := true, currentResponse := js "par" }

/-- A freshly connected, idle session. -/
def stIdle : AppState :=
  { initialState with
    models := [js "m"], selectedModel := js "m", isConnected := true,
    initialConnectionMade := true }

/-- A fresh session with `"mistral:latest"` selected, before any socket
has opened. -/
def stC3w : AppState := { initialState with selectedModel := js "mistral:latest" }

/-- The state after the very first successful socket open, with
`"mistral:latest"` selected. -/
def stC3a : AppState := onopen stC3w

/-- The state after then switching to `"gemma2:2b"` and the new socket
opening successfully. -/
def stC3b : AppState := onopen (handleModelChange stC3a (js "gemma2:2b"))

/-- A connected idle session with `"mistral:latest"` selected. -/
def stC4 : AppState :=
  { initialState with
    models := [js "mistral:latest"], selectedModel := js "mistral:latest",
    isConnected := true, initialConnectionMade := true }

/-- A connected idle session whose input box holds only blanks. -/
def stC8 : AppState :=
  { stIdle with inputMessage := js "   " }

/-! ## Basic facts about the embedded machine -/

theorem splitOnP_ne_nil (p : Nat → Bool) (s : JStr) : splitOnP p s ≠ [] := by
  cases s with
  | nil => simp [splitOnP]
  | cons c cs => simp only [splitOnP]; split <;> simp

theorem processFrames_append (l1 l2 : List InFrame) :
    ∀ st : AppState, processFrames st (l1 ++ l2) = processFrames (processFrames st l1) l2 := by
  induction l1 with
  | nil => intro st; rfl
  | cons f fs ih => intro st; simp only [List.cons_append, processFrames]; exact ih _

theorem processFrame_start (st : AppState) :
    processFrame st InFrame.stream_start =
      { st with isStreaming := true, currentResponse := [] } := by
  unfold processFrame onmessage
  split
  · rfl
  · simp [streamEndEffect]

theorem processFrame_stream_of_streaming (st : AppState) (c : JStr)
    (h : st.isStreaming = true) :
    processFrame st (InFrame.stream c) =
      { st with currentResponse := st.currentResponse ++ c } := by
  unfold processFrame onmessage
  split
  · rfl
  · simp [streamEndEffect, h]

theorem processFrame_end_of_streaming (st : AppState) (h : st.isStreaming = true) :
    processFrame st InFrame.stream_end =
      if st.currentResponse = [] then { st with isStreaming := false }
      else { st with isStreaming := false,
                     messages := st.messages ++
                       [⟨Role.assistant, st.currentResponse, some st.selectedModel⟩],
                     currentResponse := [] } := by
  unfold processFrame onmessage
  rw [if_neg (by simp [effectDeps, h])]
  unfold streamEndEffect
  by_cases hb : st.currentResponse = []
  · rw [if_neg (by simp [hb]), if_pos hb]
  · rw [if_pos (by simp [hb]), if_neg hb]

theorem processFrames_deltas (ds : List JStr) :
    ∀ st : AppState, st.isStreaming = true →
      processFrames st (ds.map InFrame.stream) =
        { st with currentResponse := st.currentResponse ++ ds.flatten } := by
  induction ds with
  | nil => intro st _; simp [processFrames]
  | cons d ds ih =>
    intro st h
    simp only [List.map_cons, processFrames]
    rw [processFrame_stream_of_streaming st d h, ih _ (by simp [h])]
    simp

/-! ## C4 and C10: finalization of a complete stream -/

/-- C4: for every frame sequence `stream_start, stream d1, ..., stream dn,
stream_end` processed while model `m` is selected, with the concatenation
of the deltas non-empty, exactly one new assistant message is appended,
its content is that concatenation, its model field is the selected model,
and the streaming buffer is cleared. -/
theorem C4_stream_end_finalizes (st : AppState) (ds : List JStr)
    (hne : ds.flatten ≠ []) :
    (processFrames st (streamSeq ds)).messages =
      st.messages ++ [⟨Role.assistant, ds.flatten, some st.selectedModel⟩] ∧
    (processFrames st (streamSeq ds)).selectedModel = st.selectedModel ∧
    (processFrames st (streamSeq ds)).isStreaming = false ∧
    (processFrames st (streamSeq ds)).currentResponse = [] := by
  have h1 : processFrames st (streamSeq ds) =
      processFrames { st with isStreaming := true, currentResponse := [] }
        (ds.map InFrame.stream ++ [InFrame.stream_end]) := by
    simp only [streamSeq, processFrames, processFrame_start]
  rw [h1, processFrames_append,
      processFrames_deltas ds { st with isStreaming := true, currentResponse := [] } rfl]
  simp only [List.nil_append, processFrames]
  rw [processFrame_end_of_streaming _ rfl]
  rw [if_neg hne]
  exact ⟨rfl, rfl, rfl, rfl⟩

/-- Witness for C4: the spec's own example, `stream_start`,
`stream "Hel"`, `stream "lo"`, `stream_end` with `"mistral:latest"`
selected yields exactly the assistant message `"Hello"` tagged
`"mistral:latest"`. -/
theorem C4_witness :
    ([js "Hel", js "lo"].flatten = js "Hello" ∧ stC4.selectedModel = js "mistral:latest") ∧
    ((processFrames stC4 (streamSeq [js "Hel", js "lo"])).messages =
      stC4.messages ++ [⟨Role.assistant, [js "Hel", js "lo"].flatten, some stC4.selectedModel⟩] ∧
    (processFrames stC4 (streamSeq [js "Hel", js "lo"])).selectedModel = stC4.selectedModel ∧
    (processFrames stC4 (streamSeq [js "Hel", js "lo"])).isStreaming = false ∧
    (processFrames stC4 (streamSeq [js "Hel", js "lo"])).currentResponse = []) :=
  ⟨by decide, C4_stream_end_finalizes stC4 [js "Hel", js "lo"] (by decide)⟩

/-- C10: if a stream ends while the streaming buffer is empty (deltas
concatenating to the empty string, in particular no deltas at all), no
assistant message is appended: the streaming-end effect fires only for a
non-empty buffer. -/
theorem C10_empty_buffer_not_finalized (st : AppState) (ds : List JStr)
    (h : ds.flatten = []) :
    (processFrames st (streamSeq ds)).messages = st.messages ∧
    (processFrames st (streamSeq ds)).isStreaming = false ∧
    (processFrames st (streamSeq ds)).currentResponse = [] := by
  have h1 : processFrames st (streamSeq ds) =
      processFrames { st with isStreaming := true, currentResponse := [] }
        (ds.map InFrame.stream ++ [InFrame.stream_end]) := by
    simp only [streamSeq, processFrames, processFrame_start]
  rw [h1, processFrames_append,
      processFrames_deltas ds { st with isStreaming := true, currentResponse := [] } rfl]
  simp only [List.nil_append, processFrames]
  rw [processFrame_end_of_streaming _ rfl]
  rw [if_pos h]
  exact ⟨rfl, rfl, by simp [h]⟩

/-- Witness for C10: a `stream_start` immediately followed by
`stream_end` appends nothing to the history of a connected idle session. -/
theorem C10_witness :
    (processFrames stIdle (streamSeq [])).messages = stIdle.messages ∧
    (processFrames stIdle (streamSeq [])).isStreaming = false ∧
    (processFrames stIdle (streamSeq [])).currentResponse = [] :=
  C10_empty_buffer_not_finalized stIdle [] (by decide)

/-! ## C1: inbound error frame mid-stream -/

/-- Counterexample to C1: in a connected streaming session with non-empty
buffer `"par"`, an inbound `error` frame appends the system error message
and then the streaming-end effect (App.js 126-134) fires — the buffer was
set non-streaming but not cleared — finalizing the partial buffer into
the history as an assistant message, which the claim says never happens. -/
theorem C1_counterexample :
    stC1.isStreaming = true ∧ stC1.currentResponse = js "par" ∧
    (processFrame stC1 (InFrame.error (js "overloaded"))).messages =
      [⟨Role.system, js "Error: overloaded", none⟩,
       ⟨Role.assistant, js "par", some (js "m")⟩] := by decide

/-- C1 amended: processing an inbound `error` frame mid-stream with a
non-empty buffer appends exactly one system message `"Error: " ++ e` and
returns the streaming state to idle, and then the partial buffer IS
finalized into the history as an assistant message tagged with the
current model (the streaming-end effect fires because the error handler
resets the flag without clearing the buffer); the buffer is cleared. -/
theorem C1_error_midstream (st : AppState) (e : JStr)
    (hs : st.isStreaming = true) (hb : st.currentResponse ≠ []) :
    (processFrame st (InFrame.error e)).messages =
      st.messages ++ [⟨Role.system, js "Error: " ++ e, none⟩,
                      ⟨Role.assistant, st.currentResponse, some st.selectedModel⟩] ∧
    (processFrame st (InFrame.error e)).isStreaming = false ∧
    (processFrame st (InFrame.error e)).currentResponse = [] := by
  unfold processFrame onmessage
  rw [if_neg (by simp [effectDeps, hs])]
  unfold streamEndEffect
  rw [if_pos (by simp [hb])]
  exact ⟨by simp, rfl, rfl⟩

/-- Witness for C1's amended theorem at the concrete mid-stream state. -/
theorem C1_witness :
    (processFrame stC1 (InFrame.error (js "overloaded"))).messages =
      stC1.messages ++ [⟨Role.system, js "Error: " ++ js "overloaded", none⟩,
                        ⟨Role.assistant, stC1.currentResponse, some stC1.selectedModel⟩] ∧
    (processFrame stC1 (InFrame.error (js "overloaded"))).isStreaming = false ∧
    (processFrame stC1 (InFrame.error (js "overloaded"))).currentResponse = [] :=
  C1_error_midstream stC1 (js "overloaded") (by decide) (by decide)

/-! ## C8: guarded submit -/

/-- C8: submitting while the trimmed input is empty, or the socket is
disconnected, or a stream is in progress, is a complete no-op: the state
(history included) is unchanged and no frame is sent. -/
theorem C8_submit_guard (st : AppState)
    (h : trimJ st.inputMessage = [] ∨ st.isConnected = false ∨ st.isStreaming = true) :
    handleSendMessage st = (st, none) := by
  unfold handleSendMessage
  rw [if_pos h]

/-- Witness for C8: a connected idle session whose input box holds only
blanks submits nothing. -/
theorem C8_witness : handleSendMessage stC8 = (stC8, none) :=
  C8_submit_guard stC8 (Or.inl (by decide))

/-! ## C9: malformed inbound frame -/

/-- C9: a frame whose payload fails to parse reaches only the logging
`catch` branch: processing it is the identity on the whole session state,
for every state.  (The handler is a total function; `InFrame.malformed`
stands for every payload rejected by `JSON.parse`.) -/
theorem C9_malformed_ignored (st : AppState) : processFrame st InFrame.malformed = st := by
  simp [processFrame, onmessage]

/-! ## C2: the streaming buffer as a function of the frame sequence -/

theorem processFrame_R (st : AppState) (w : Option JStr) (f : InFrame)
    (h : machineR st w) : machineR (processFrame st f) (specStep w f) := by
  cases w with
  | none =>
    obtain ⟨hs, hb⟩ := h
    cases f with
    | stream_start =>
      rw [processFrame_start]; exact ⟨rfl, rfl⟩
    | stream c =>
      by_cases hc : c = []
      · subst hc
        unfold processFrame onmessage
        rw [if_pos (by simp)]
        exact ⟨hs, by simp [hb]⟩
      · unfold processFrame onmessage
        rw [if_neg (by simp [effectDeps, hb, hc])]
        unfold streamEndEffect
        rw [if_pos (by simp [hs, hb, hc])]
        exact ⟨hs, rfl⟩
    | stream_end =>
      unfold processFrame onmessage
      rw [if_pos (by simp [effectDeps, hs])]
      exact ⟨rfl, hb⟩
    | error c =>
      unfold processFrame onmessage
      rw [if_pos (by simp [effectDeps, hs])]
      exact ⟨rfl, hb⟩
    | chat_histories hs' =>
      unfold processFrame onmessage
      rw [if_pos (by simp [effectDeps])]
      exact ⟨hs, hb⟩
    | otherType =>
      unfold processFrame onmessage
      rw [if_pos rfl]
      exact ⟨hs, hb⟩
    | malformed =>
      unfold processFrame onmessage
      rw [if_pos rfl]
      exact ⟨hs, hb⟩
  | some b =>
    obtain ⟨hs, hb⟩ := h
    cases f with
    | stream_start =>
      rw [processFrame_start]; exact ⟨rfl, rfl⟩
    | stream c =>
      rw [processFrame_stream_of_streaming st c hs]
      exact ⟨hs, by simp [hb]⟩
    | stream_end =>
      rw [processFrame_end_of_streaming st hs]
      by_cases hb0 : st.currentResponse = []
      · rw [if_pos hb0]
        exact ⟨rfl, hb0⟩
      · rw [if_neg hb0]
        exact ⟨rfl, rfl⟩
    | error c =>
      unfold processFrame onmessage
      rw [if_neg (by simp [effectDeps, hs])]
      unfold streamEndEffect
      by_cases hb0 : st.currentResponse = []
      · rw [if_neg (by simp [hb0])]
        exact ⟨rfl, hb0⟩
      · rw [if_pos (by simp [hb0])]
        exact ⟨rfl, rfl⟩
    | chat_histories hs' =>
      unfold processFrame onmessage
      rw [if_pos (by simp [effectDeps])]
      exact ⟨hs, hb⟩
    | otherType =>
      unfold processFrame onmessage
      rw [if_pos rfl]
      exact ⟨hs, hb⟩
    | malformed =>
      unfold processFrame onmessage
      rw [if_pos rfl]
      exact ⟨hs, hb⟩

theorem processFrames_R (fs : List InFrame) :
    ∀ (st : AppState) (w : Option JStr), machineR st w →
      machineR (processFrames st fs) (fs.foldl specStep w) := by
  induction fs with
  | nil => intro st w h; exact h
  | cons f fs ih => intro st w h; exact ih _ _ (processFrame_R st w f h)

theorem no_start_of_afterLastStart_none :
    ∀ fs : List InFrame, afterLastStart fs = none → ∀ f ∈ fs, isStart f = false := by
  intro fs
  induction fs with
  | nil => intro _ f hf; simp at hf
  | cons f fs ih =>
    intro h g hg
    simp only [afterLastStart] at h
    cases hA : afterLastStart fs with
    | some s => rw [hA] at h; simp at h
    | none =>
      rw [hA] at h
      by_cases hf : isStart f
      · rw [if_pos hf] at h; simp at h
      · rcases List.mem_cons.mp hg with rfl | hg'
        · simpa using hf
        · exact ih hA g hg'

theorem foldl_specStep_none (fs : List InFrame)
    (h : ∀ f ∈ fs, isStart f = false) : fs.foldl specStep none = none := by
  induction fs with
  | nil => rfl
  | cons f fs ih =>
    have hf := h f (by simp)
    have hstep : specStep none f = none := by
      cases f <;> simp [specStep, isStart] at hf ⊢
    rw [List.foldl_cons, hstep]
    exact ih (fun g hg => h g (by simp [hg]))

theorem foldl_specStep_some (fs : List InFrame) :
    ∀ b : JStr, (∀ f ∈ fs, isStart f = false) →
      fs.foldl specStep (some b) =
        if fs.any isStop then none else some (b ++ streamContents fs) := by
  induction fs with
  | nil => intro b _; simp [streamContents]
  | cons f fs ih =>
    intro b h
    cases f with
    | stream_start =>
      have hcontra := h InFrame.stream_start (by simp)
      simp [isStart] at hcontra
    | stream c =>
      rw [List.foldl_cons, show specStep (some b) (InFrame.stream c) = some (b ++ c) from rfl,
          ih (b ++ c) (fun g hg => h g (by simp [hg]))]
      simp [streamContents, isStop]
    | stream_end =>
      rw [List.foldl_cons, show specStep (some b) InFrame.stream_end = none from rfl,
          foldl_specStep_none fs (fun g hg => h g (by simp [hg]))]
      simp [isStop]
    | error e =>
      rw [List.foldl_cons, show specStep (some b) (InFrame.error e) = none from rfl,
          foldl_specStep_none fs (fun g hg => h g (by simp [hg]))]
      simp [isStop]
    | chat_histories hs =>
      rw [List.foldl_cons, show specStep (some b) (InFrame.chat_histories hs) = some b from rfl,
          ih b (fun g hg => h g (by simp [hg]))]
      simp [streamContents, isStop]
    | otherType =>
      rw [List.foldl_cons, show specStep (some b) InFrame.otherType = some b from rfl,
          ih b (fun g hg => h g (by simp [hg]))]
      simp [streamContents, isStop]
    | malformed =>
      rw [List.foldl_cons, show specStep (some b) InFrame.malformed = some b from rfl,
          ih b (fun g hg => h g (by simp [hg]))]
      simp [streamContents, isStop]

theorem foldl_specStep_of_afterLastStart (fs : List InFrame) :
    ∀ (w : Option JStr) (suf : List InFrame), afterLastStart fs = some suf →
      fs.foldl specStep w =
        if suf.any isStop then none else some (streamContents suf) := by
  induction fs with
  | nil => intro w suf h; simp [afterLastStart] at h
  | cons f fs ih =>
    intro w suf h
    simp only [afterLastStart] at h
    cases hA : afterLastStart fs with
    | some s =>
      rw [hA] at h
      have hsuf : suf = s := (Option.some.inj h).symm
      subst hsuf
      rw [List.foldl_cons]
      exact ih _ _ hA
    | none =>
      rw [hA] at h
      by_cases hf : isStart f
      · rw [if_pos hf] at h
        have hsuf : suf = fs := (Option.some.inj h).symm
        subst hsuf
        have hf' : f = InFrame.stream_start := by
          cases f <;> simp [isStart] at hf ⊢
        subst hf'
        rw [List.foldl_cons, show specStep w InFrame.stream_start = some [] from rfl,
            foldl_specStep_some _ [] (no_start_of_afterLastStart_none _ hA)]
        simp
      · rw [if_neg hf] at h
        simp at h

/-- Counterexample to C2 as literally stated: after `stream_start`,
`stream "a"`, `stream_end`, the delta `"a"` arrived strictly after the
most recent `stream_start` and strictly before the next `stream_end`, so
the claim says the buffer content is `"a"`; the streaming-end effect has
in fact finalized and cleared the buffer, which ends empty. -/
theorem C2_counterexample :
    specWindowBuffer [InFrame.stream_start, InFrame.stream (js "a"), InFrame.stream_end]
      = js "a" ∧
    (processFrames stIdle
      [InFrame.stream_start, InFrame.stream (js "a"), InFrame.stream_end]).currentResponse
      = [] ∧
    js "a" ≠ ([] : JStr) := by decide

/-- C2 amended: starting from a non-streaming state with empty buffer,
after processing any frame sequence the buffer equals the concatenation,
in arrival order, of the deltas following the most recent `stream_start`
provided no `stream_end`/`error` has followed it (an open window); when
the window has been closed, or no `stream_start` arrived, the buffer is
empty (a closing frame finalizes and clears it).  Stray deltas outside a
window still contribute nothing to the final buffer. -/
theorem C2_buffer_content (st : AppState) (fs : List InFrame)
    (h1 : st.isStreaming = false) (h2 : st.currentResponse = []) :
    (processFrames st fs).currentResponse = specBufferAmended fs := by
  have hR : machineR (processFrames st fs) (fs.foldl specStep none) :=
    processFrames_R fs st none ⟨h1, h2⟩
  cases hA : afterLastStart fs with
  | none =>
    rw [foldl_specStep_none fs (no_start_of_afterLastStart_none fs hA)] at hR
    simp only [specBufferAmended, hA]
    exact hR.2
  | some suf =>
    rw [foldl_specStep_of_afterLastStart fs none suf hA] at hR
    simp only [specBufferAmended, hA]
    by_cases hstop : suf.any isStop
    · rw [if_pos hstop] at hR ⊢
      exact hR.2
    · rw [if_neg hstop] at hR ⊢
      exact hR.2

/-- Witness for C2's amended theorem: an open window accumulates its
deltas, here `"He" ++ "llo" = "Hello"`. -/
theorem C2_witness :
    (processFrames stIdle
      [InFrame.stream_start, InFrame.stream (js "He"), InFrame.stream (js "llo")]).currentResponse =
      specBufferAmended
        [InFrame.stream_start, InFrame.stream (js "He"), InFrame.stream (js "llo")] ∧
    specBufferAmended
      [InFrame.stream_start, InFrame.stream (js "He"), InFrame.stream (js "llo")] = js "Hello" :=
  ⟨C2_buffer_content stIdle _ (by decide) (by decide), by decide⟩

/-! ## C3: greeting on socket open -/

/-- Counterexample to C3: after the first successful open (which greets
for `"mistral:latest"`), selecting `"gemma2:2b"` and successfully opening
its socket appends no greeting at all — `initialConnectionMade` is a
single app-wide flag, not per-model — contradicting the claim that the
second model also gets a greeting. -/
theorem C3_counterexample :
    stC3a.messages =
      [⟨Role.assistant, greet (js "mistral:latest"), some (js "mistral:latest")⟩] ∧
    stC3b.selectedModel = js "gemma2:2b" ∧
    stC3b.isConnected = true ∧
    stC3b.messages = stC3a.messages := by decide

/-- C3 amended: the greeting is appended exactly once per app session,
not once per model: on a successful open with `initialConnectionMade`
still false, exactly one greeting using the selected model's display name
is appended and the flag is set; on every later successful open (same or
different model) no message is appended. -/
theorem C3_greeting_once (st : AppState) :
    (st.initialConnectionMade = false →
      (onopen st).messages = st.messages ++
        [⟨Role.assistant, greet st.selectedModel, some st.selectedModel⟩] ∧
      (onopen st).initialConnectionMade = true ∧
      (onopen st).isConnected = true) ∧
    (st.initialConnectionMade = true →
      (onopen st).messages = st.messages ∧
      (onopen st).isConnected = true) := by
  constructor
  · intro h
    unfold onopen
    rw [if_pos h]
    exact ⟨rfl, rfl, rfl⟩
  · intro h
    unfold onopen
    rw [if_neg (by simp [h])]
    exact ⟨rfl, rfl⟩

/-- Witness for C3's amended theorem: the first open on the fresh session
greets; the next open (the state after the first open) does not. -/
theorem C3_witness :
    ((onopen stC3w).messages = stC3w.messages ++
        [⟨Role.assistant, greet stC3w.selectedModel, some stC3w.selectedModel⟩] ∧
      (onopen stC3w).initialConnectionMade = true ∧
      (onopen stC3w).isConnected = true) ∧
    ((onopen stC3a).messages = stC3a.messages ∧
      (onopen stC3a).isConnected = true) :=
  ⟨(C3_greeting_once stC3w).1 (by decide), (C3_greeting_once stC3a).2 (by decide)⟩

/-! ## C7: fetching the model list -/

/-- C7: on a successful fetch of a non-empty model list, the stored list
is the reverse of arrival order and the selection becomes the
most-recently-listed model (the last of the arrival list); on failure the
model list is untouched (so it stays empty) and exactly one system error
message is appended.  Totality of `fetchModels` is the never-throws
guarantee. -/
theorem C7_fetchModels_contract (st : AppState) (ms : List JStr) (h : ms ≠ []) :
    (fetchModels st (FetchResult.ok ms)).models = ms.reverse ∧
    (fetchModels st (FetchResult.ok ms)).selectedModel = (ms.getLast?).getD [] ∧
    (fetchModels st (FetchResult.ok ms)).messages = st.messages ∧
    (fetchModels st FetchResult.fail).models = st.models ∧
    (fetchModels st FetchResult.fail).messages = st.messages ++
      [⟨Role.system,
        js "Error connecting to the server. Please ensure the backend is running.", none⟩] := by
  rcases List.eq_nil_or_concat ms with rfl | ⟨l, a, rfl⟩
  · exact absurd rfl h
  · simp only [fetchModels]
    rw [if_pos (by simp)]
    refine ⟨rfl, ?_, rfl, trivial, trivial⟩
    simp

/-- Witness for C7: arrival order `["a", "b"]` is stored reversed with
`"b"` (the most-recently-listed model) selected; a failure appends the
error message to an untouched model list. -/
theorem C7_witness :
    (fetchModels initialState (FetchResult.ok [js "a", js "b"])).models =
      ([js "a", js "b"] : List JStr).reverse ∧
    (fetchModels initialState (FetchResult.ok [js "a", js "b"])).selectedModel =
      (([js "a", js "b"] : List JStr).getLast?).getD [] ∧
    (fetchModels initialState (FetchResult.ok [js "a", js "b"])).messages =
      initialState.messages ∧
    (fetchModels initialState FetchResult.fail).models = initialState.models ∧
    (fetchModels initialState FetchResult.fail).messages = initialState.messages ++
      [⟨Role.system,
        js "Error connecting to the server. Please ensure the backend is running.", none⟩] :=
  C7_fetchModels_contract initialState [js "a", js "b"] (by decide)

/-! ## Code-unit lemmas for `getDisplayName` -/

theorem lowerU_idem (n : Nat) : lowerU (lowerU n) = lowerU n := by
  unfold lowerU
  split_ifs <;> omega

theorem upperU_idem (n : Nat) : upperU (upperU n) = upperU n := by
  unfold upperU
  split_ifs <;> omega

theorem upperU_lowerU (n : Nat) : upperU (lowerU n) = upperU n := by
  unfold upperU lowerU
  split_ifs <;> omega

theorem isAlnumU_lowerU (n : Nat) : isAlnumU (lowerU n) = isAlnumU n := by
  unfold isAlnumU lowerU
  split_ifs with h
  · exact decide_eq_decide.mpr (by omega)
  · rfl

theorem notAlnum_lowerU (n : Nat) : notAlnum (lowerU n) = notAlnum n := by
  unfold notAlnum
  rw [isAlnumU_lowerU]

theorem isColon_lowerU (n : Nat) : isColon (lowerU n) = isColon n := by
  unfold isColon lowerU
  split_ifs with h
  · exact decide_eq_decide.mpr (by omega)
  · rfl

theorem isAlnumU_upperU (n : Nat) (h : isAlnumU n = true) : isAlnumU (upperU n) = true := by
  unfold isAlnumU at h ⊢
  unfold upperU
  split_ifs with h1
  · simp only [decide_eq_true_eq] at h ⊢
    omega
  · exact h

theorem lowerU_comp : lowerU ∘ lowerU = lowerU := funext lowerU_idem

theorem map_lowerU_idem (s : JStr) : (s.map lowerU).map lowerU = s.map lowerU := by
  rw [List.map_map, lowerU_comp]

theorem toLowerJ_idem (s : JStr) : toLowerJ (toLowerJ s) = toLowerJ s :=
  map_lowerU_idem s

theorem titleWord_map_lowerU (w : JStr) : titleWord (w.map lowerU) = titleWord w := by
  cases w with
  | nil => rfl
  | cons c rest =>
    simp only [List.map_cons, titleWord, upperU_lowerU, map_lowerU_idem]

theorem titleWord_titleWord (w : JStr) : titleWord (titleWord w) = titleWord w := by
  cases w with
  | nil => rfl
  | cons c rest =>
    simp only [titleWord, upperU_idem, map_lowerU_idem]

theorem splitOnP_map_lowerU (q : Nat → Bool) (hq : ∀ n, q (lowerU n) = q n) (s : JStr) :
    splitOnP q (s.map lowerU) = (splitOnP q s).map (List.map lowerU) := by
  induction s with
  | nil => rfl
  | cons c cs ih =>
    show splitOnP q (lowerU c :: cs.map lowerU) = _
    simp only [splitOnP, hq c, ih]
    by_cases hc : q c
    · simp [hc]
    · cases hr : splitOnP q cs with
      | nil => exact absurd hr (splitOnP_ne_nil _ _)
      | cons w ws => simp [hc, hr]

theorem findAlias_toLowerJ (s : JStr) : findAlias (toLowerJ s) = findAlias s := by
  unfold findAlias
  congr 1
  funext kv
  rw [toLowerJ_idem]

/-- Casing invariance of `getDisplayName`: lowercasing the input first
changes nothing (the alias test lowercases anyway, and the formatting
branch title-cases each word). -/
theorem getDisplayName_toLowerJ (s : JStr) :
    getDisplayName (toLowerJ s) = getDisplayName s := by
  unfold getDisplayName
  rw [findAlias_toLowerJ]
  cases findAlias s with
  | some kv => rfl
  | none =>
    simp only
    rw [show toLowerJ s = s.map lowerU from rfl,
        splitOnP_map_lowerU isColon isColon_lowerU]
    cases hP : splitOnP isColon s with
    | nil => exact absurd hP (splitOnP_ne_nil _ _)
    | cons p ps =>
      simp only [List.map_cons]
      rw [splitOnP_map_lowerU notAlnum notAlnum_lowerU, List.map_map,
          show titleWord ∘ List.map lowerU = titleWord from funext titleWord_map_lowerU]

theorem joinSp_cons_cons (w x : JStr) (t : List JStr) :
    joinSp (w :: x :: t) = w ++ 32 :: joinSp (x :: t) := rfl

theorem joinSp_ne_of_head_ne (w : JStr) (ws : List JStr) (hw : w ≠ []) :
    joinSp (w :: ws) ≠ [] := by
  cases ws with
  | nil => simpa [joinSp] using hw
  | cons x t => simp [joinSp_cons_cons]

theorem joinSp_ne_of_two (w x : JStr) (t : List JStr) : joinSp (w :: x :: t) ≠ [] := by
  simp [joinSp_cons_cons]

theorem joinSp_titleWords_ne (q : Nat → Bool) (p : JStr) (hp : p ≠ []) :
    joinSp ((splitOnP q p).map titleWord) ≠ [] := by
  cases p with
  | nil => exact absurd rfl hp
  | cons c rest =>
    simp only [splitOnP]
    by_cases hc : q c = true
    · rw [if_pos hc]
      cases hr : splitOnP q rest with
      | nil => exact absurd hr (splitOnP_ne_nil _ _)
      | cons w ws =>
        simp only [List.map_cons]
        exact joinSp_ne_of_two _ _ _
    · rw [if_neg hc]
      simp only [List.map_cons]
      apply joinSp_ne_of_head_ne
      simp [titleWord]

/-! ## C5: totality and shape of the display name -/

/-- Counterexample to C5: the empty string matches no alias (it is an
unmapped input), yet `getDisplayName` returns the empty string for it,
not a non-empty title-cased string: the first `:`-part of `""` is `""`,
whose title-cased join is `""`. -/
theorem C5_counterexample :
    findAlias (js "") = none ∧ getDisplayName (js "") = [] := by decide

/-- C5 amended: `getDisplayName` is total and deterministic (it is a pure
function); alias matching is casing-insensitive (lowercasing the input
never changes the result, and a successful alias lookup returns the
mapped name); for every unmapped input whose part before the first `:`
is non-empty the result is non-empty (the part before the first `:` of
the counterexample `""` is empty, so the non-emptiness claim holds only
under this proviso); and the two examples hold. -/
theorem C5_displayName_contract :
    (∀ s : JStr, getDisplayName (toLowerJ s) = getDisplayName s) ∧
    (∀ (s : JStr) (kv : JStr × JStr), findAlias s = some kv → getDisplayName s = kv.2) ∧
    (∀ s : JStr, findAlias s = none → (splitOnP isColon s).headI ≠ [] →
      getDisplayName s ≠ []) ∧
    getDisplayName (js "gemma2:2b") = js "Gemma 2" ∧
    getDisplayName (js "custom-model:7b") = js "Custom Model" := by
  refine ⟨getDisplayName_toLowerJ, ?_, ?_, by decide, by decide⟩
  · intro s kv h
    simp only [getDisplayName, h]
  · intro s hA hp
    simp only [getDisplayName, hA]
    cases hP : splitOnP isColon s with
    | nil => exact absurd hP (splitOnP_ne_nil _ _)
    | cons p ps =>
      rw [hP] at hp
      simp only [List.headI_cons] at hp
      exact joinSp_titleWords_ne notAlnum p hp

/-- Witness for C5's amended theorem: casing invariance at
`"GeMmA2:2B"`, the alias branch at `"MISTRAL:LATEST"`, and
non-emptiness at the unmapped `"custom-model:7b"`. -/
theorem C5_witness :
    getDisplayName (toLowerJ (js "GeMmA2:2B")) = getDisplayName (js "GeMmA2:2B") ∧
    getDisplayName (js "MISTRAL:LATEST") = (js "mistral:latest", js "Mistral").2 ∧
    getDisplayName (js "custom-model:7b") ≠ [] :=
  ⟨C5_displayName_contract.1 (js "GeMmA2:2B"),
   C5_displayName_contract.2.1 (js "MISTRAL:LATEST")
     (js "mistral:latest", js "Mistral") (by decide),
   C5_displayName_contract.2.2.1 (js "custom-model:7b") (by decide) (by decide)⟩

/-! ## C6: idempotence analysis of the display name -/

theorem mem_splitOnP_false (q : Nat → Bool) :
    ∀ (s : JStr) (w : JStr), w ∈ splitOnP q s → ∀ x ∈ w, q x = false := by
  intro s
  induction s with
  | nil =>
    intro w hw x hx
    simp only [splitOnP, List.mem_singleton] at hw
    subst hw
    simp at hx
  | cons c cs ih =>
    intro w hw x hx
    simp only [splitOnP] at hw
    by_cases hc : q c = true
    · rw [if_pos hc] at hw
      rcases List.mem_cons.mp hw with rfl | hw'
      · simp at hx
      · exact ih w hw' x hx
    · rw [if_neg hc] at hw
      rcases List.mem_cons.mp hw with rfl | hw'
      · rcases List.mem_cons.mp hx with rfl | hx'
        · simpa using hc
        · have hmem : (splitOnP q cs).headI ∈ splitOnP q cs := by
            cases hr : splitOnP q cs with
            | nil => exact absurd hr (splitOnP_ne_nil _ _)
            | cons a t => simp
          exact ih _ hmem x hx'
      · exact ih w (List.mem_of_mem_tail hw') x hx

theorem mem_joinSp : ∀ (vs : List JStr) (x : Nat),
    x ∈ joinSp vs → x = 32 ∨ ∃ v ∈ vs, x ∈ v := by
  intro vs
  induction vs with
  | nil => intro x hx; simp [joinSp] at hx
  | cons v vs ih =>
    intro x hx
    cases vs with
    | nil =>
      right
      exact ⟨v, by simp, by simpa [joinSp] using hx⟩
    | cons v2 t =>
      rw [joinSp_cons_cons] at hx
      rcases List.mem_append.mp hx with h | h
      · right; exact ⟨v, by simp, h⟩
      · rcases List.mem_cons.mp h with rfl | h2
        · left; rfl
        · rcases ih x h2 with h32 | ⟨u, hu, hxu⟩
          · left; exact h32
          · right; exact ⟨u, by simp [hu], hxu⟩

theorem mem_titleWord (w : JStr) (x : Nat) (hx : x ∈ titleWord w) :
    ∃ y ∈ w, x = upperU y ∨ x = lowerU y := by
  cases w with
  | nil => simp [titleWord] at hx
  | cons c rest =>
    simp only [titleWord] at hx
    rcases List.mem_cons.mp hx with rfl | hx'
    · exact ⟨c, by simp, Or.inl rfl⟩
    · rcases List.mem_map.mp hx' with ⟨y, hy, rfl⟩
      exact ⟨y, by simp [hy], Or.inr rfl⟩

theorem titleWords_alnum (p : JStr) :
    ∀ v ∈ (splitOnP notAlnum p).map titleWord, ∀ x ∈ v, isAlnumU x = true := by
  intro v hv x hx
  rcases List.mem_map.mp hv with ⟨w, hw, rfl⟩
  rcases mem_titleWord w x hx with ⟨y, hy, hcase⟩
  have hy' : notAlnum y = false := mem_splitOnP_false notAlnum p w hw y hy
  have hy2 : isAlnumU y = true := by simpa [notAlnum] using hy'
  rcases hcase with rfl | rfl
  · exact isAlnumU_upperU y hy2
  · rw [isAlnumU_lowerU]; exact hy2

theorem formatUnits (p : JStr) (x : Nat)
    (hx : x ∈ joinSp ((splitOnP notAlnum p).map titleWord)) :
    x = 32 ∨ isAlnumU x = true := by
  rcases mem_joinSp _ x hx with h | ⟨v, hv, hxv⟩
  · exact Or.inl h
  · exact Or.inr (titleWords_alnum p v hv x hxv)

theorem includesJ_subset (nd : JStr) :
    ∀ hay : JStr, includesJ nd hay = true → ∀ x ∈ nd, x ∈ hay := by
  intro hay
  induction hay with
  | nil =>
    intro h x hx
    have hnd : nd = [] := by simpa [includesJ] using h
    subst hnd
    simp at hx
  | cons c t ih =>
    intro h x hx
    simp only [includesJ, Bool.or_eq_true] at h
    rcases h with h | h
    · exact ((List.isPrefixOf_iff_prefix.mp h).sublist.subset) hx
    · exact List.mem_cons_of_mem c (ih h x hx)

theorem no58_format (p : JStr) :
    (58 : Nat) ∉ joinSp ((splitOnP notAlnum p).map titleWord) := by
  intro h58
  rcases formatUnits p 58 h58 with h | h
  · exact absurd h (by decide)
  · exact absurd h (by decide)

theorem findAlias_format_none (p : JStr) :
    findAlias (joinSp ((splitOnP notAlnum p).map titleWord)) = none := by
  unfold findAlias
  rw [List.find?_eq_none]
  intro kv hkv
  intro hinc
  have h58key : (58 : Nat) ∈ toLowerJ kv.1 := by
    simp only [modelMap, List.mem_cons, List.not_mem_nil, or_false] at hkv
    rcases hkv with rfl | rfl | rfl | rfl <;> decide
  have h58hay := includesJ_subset _ _ hinc 58 h58key
  rcases List.mem_map.mp h58hay with ⟨m, hm, hlm⟩
  have hm58 : m = 58 := by
    unfold lowerU at hlm
    split_ifs at hlm <;> omega
  subst hm58
  exact no58_format p hm

theorem splitOnP_all_false (q : Nat → Bool) (s : JStr) (h : ∀ x ∈ s, q x = false) :
    splitOnP q s = [s] := by
  induction s with
  | nil => rfl
  | cons c cs ih =>
    have hc : q c = false := h c (by simp)
    simp only [splitOnP]
    rw [if_neg (by simp [hc]), ih (fun x hx => h x (by simp [hx]))]
    simp

theorem splitOnP_append_left (q : Nat → Bool) (v : JStr) (hv : ∀ x ∈ v, q x = false) :
    ∀ y : JStr, splitOnP q (v ++ y) =
      (v ++ (splitOnP q y).headI) :: (splitOnP q y).tail := by
  induction v with
  | nil =>
    intro y
    simp only [List.nil_append]
    cases hr : splitOnP q y with
    | nil => exact absurd hr (splitOnP_ne_nil _ _)
    | cons a t => simp
  | cons c v ih =>
    intro y
    have hc : q c = false := hv c (by simp)
    simp only [List.cons_append, splitOnP]
    rw [if_neg (by simp [hc]), show List.append v y = v ++ y from rfl,
        ih (fun x hx => hv x (by simp [hx])) y]
    simp

theorem splitOnP_joinSp (q : Nat → Bool) (hq32 : q 32 = true) :
    ∀ vs : List JStr, vs ≠ [] → (∀ v ∈ vs, ∀ x ∈ v, q x = false) →
      splitOnP q (joinSp vs) = vs := by
  intro vs
  induction vs with
  | nil => intro h _; exact absurd rfl h
  | cons v vs ih =>
    intro _ hall
    cases vs with
    | nil =>
      exact splitOnP_all_false q v (hall v (by simp))
    | cons v2 t =>
      rw [joinSp_cons_cons]
      rw [splitOnP_append_left q v (hall v (by simp)) (32 :: joinSp (v2 :: t))]
      have h32 : splitOnP q (32 :: joinSp (v2 :: t)) =
          [] :: splitOnP q (joinSp (v2 :: t)) := by
        simp only [splitOnP]
        rw [if_pos (by simp [hq32])]
      rw [h32, ih (by simp) (fun u hu => hall u (by simp [hu]))]
      simp

/-- The formatting branch of `getDisplayName` produces fixed points: its
output contains no colon (so it matches no alias key, all of which
contain one), splits back into exactly its title-cased words, and
title-casing is idempotent on them. -/
theorem format_fixed (p : JStr) :
    getDisplayName (joinSp ((splitOnP notAlnum p).map titleWord)) =
      joinSp ((splitOnP notAlnum p).map titleWord) := by
  have hcolon : ∀ x ∈ joinSp ((splitOnP notAlnum p).map titleWord), isColon x = false := by
    intro x hx
    rcases formatUnits p x hx with rfl | h
    · decide
    · unfold isColon
      simp only [decide_eq_false_iff_not]
      intro hx58
      subst hx58
      exact absurd h (by decide)
  have hall : ∀ v ∈ (splitOnP notAlnum p).map titleWord, ∀ x ∈ v, notAlnum x = false := by
    intro v hv x hx
    have := titleWords_alnum p v hv x hx
    simp [notAlnum, this]
  have hne : (splitOnP notAlnum p).map titleWord ≠ [] := by
    intro h
    exact splitOnP_ne_nil notAlnum p (List.map_eq_nil_iff.mp h)
  simp only [getDisplayName, findAlias_format_none,
    splitOnP_all_false isColon _ hcolon]
  rw [splitOnP_joinSp notAlnum (by decide) _ hne hall]
  rw [List.map_map, show titleWord ∘ titleWord = titleWord from funext titleWord_titleWord]

/-- Counterexample to C6: `getDisplayName` is not idempotent.  The alias
outputs `"DeepSeek R1"` and `"Llama 3.2"` are not fixed points: re-running
the function title-cases them to `"Deepseek R1"` and splits on the dot to
`"Llama 3 2"`. -/
theorem C6_counterexample :
    getDisplayName (getDisplayName (js "deepseek-r1:latest")) ≠
      getDisplayName (js "deepseek-r1:latest") ∧
    getDisplayName (getDisplayName (js "llama3.2:latest")) ≠
      getDisplayName (js "llama3.2:latest") := by decide

/-- C6 amended: `getDisplayName` is idempotent on every input except
those whose display name is `"DeepSeek R1"` or `"Llama 3.2"` (the two
alias outputs that are not fixed points): all formatting-branch outputs
and the alias outputs `"Mistral"` and `"Gemma 2"` are fixed points. -/
theorem C6_idempotent_outside (s : JStr)
    (h1 : getDisplayName s ≠ js "DeepSeek R1")
    (h2 : getDisplayName s ≠ js "Llama 3.2") :
    getDisplayName (getDisplayName s) = getDisplayName s := by
  cases hA : findAlias s with
  | none =>
    cases hP : splitOnP isColon s with
    | nil => exact absurd hP (splitOnP_ne_nil _ _)
    | cons p ps =>
      have hval : getDisplayName s = joinSp ((splitOnP notAlnum p).map titleWord) := by
        simp only [getDisplayName, hA, hP]
      rw [hval]
      exact format_fixed p
  | some kv =>
    have hval : getDisplayName s = kv.2 := by simp only [getDisplayName, hA]
    have hmem : kv ∈ modelMap := List.mem_of_find?_eq_some hA
    rw [hval]
    simp only [modelMap, List.mem_cons, List.not_mem_nil, or_false] at hmem
    rcases hmem with rfl | rfl | rfl | rfl
    · decide
    · exact absurd hval h1
    · exact absurd hval h2
    · decide

/-- Witness for C6's amended theorem at the unmapped input
`"custom-model:7b"`, whose display name `"Custom Model"` is a fixed
point. -/
theorem C6_witness :
    getDisplayName (getDisplayName (js "custom-model:7b")) =
      getDisplayName (js "custom-model:7b") :=
  C6_idempotent_outside (js "custom-model:7b") (by decide) (by decide)
